import Mathlib

/-!
Verification of the transparency-refinement core of
`process_images_enhanced.py` (background-remover).

The embedding follows the source:
  - a pixel buffer is a 2-dimensional array of RGBA pixels with 8-bit
    channels; here a `List (List Pixel)` with `Nat` channels and a
    well-formedness predicate bounding each channel by 255;
  - `ensure_transparency` applies three whole-buffer passes in sequence,
    each pass computing its per-pixel mask on the buffer as left by the
    previous pass (in the source the channel views `red, green, blue,
    alpha` alias the mutated array `data`);
  - numpy arithmetic on `uint8` arrays wraps modulo 256, so the pass-3
    sum `red + green + blue` is modelled as `(r + g + b) % 256`; the
    subsequent `/ 3` is numpy float division, modelled exactly as
    division in `ℚ` (for integer numerators up to 765 the float
    comparison with 200 agrees with the exact rational one);
  - the interactive option parsing of `select_options` and the batch
    loop of `main` are embedded over answer strings and an abstract
    fallible per-image step.
-/

namespace BackgroundRemover

/-- One RGBA pixel: four 8-bit channels, modelled as naturals. -/
structure Pixel where
  red : Nat
  green : Nat
  blue : Nat
  alpha : Nat
deriving DecidableEq, Repr

/-- A pixel is well formed when every channel fits in 8 bits. -/
def Pixel.wf (p : Pixel) : Prop :=
  p.red ≤ 255 ∧ p.green ≤ 255 ∧ p.blue ≤ 255 ∧ p.alpha ≤ 255

instance (p : Pixel) : Decidable p.wf :=
  inferInstanceAs (Decidable (p.red ≤ 255 ∧ p.green ≤ 255 ∧ p.blue ≤ 255 ∧ p.alpha ≤ 255))

/-- The pixel buffer of one image: rows of pixels (the `(height, width, 4)`
numpy array `data`). -/
abbrev Buffer : Type := List (List Pixel)

/-- Well-formed buffer: every pixel is well formed. -/
def Buffer.wf (b : Buffer) : Prop :=
  ∀ row ∈ b, ∀ p ∈ row, p.wf

instance (b : Buffer) : Decidable b.wf :=
  inferInstanceAs (Decidable (∀ row ∈ b, ∀ p ∈ row, Pixel.wf p))

/-- Source line 55: `threshold = 240`. -/
def threshold : Nat := 240

/-- Source line 64: `edge_threshold = 200`. -/
def edge_threshold : Nat := 200

/-- Source line 56: the pass-1 mask
`(red > threshold) & (green > threshold) & (blue > threshold)`. -/
def white_pixels (p : Pixel) : Prop :=
  threshold < p.red ∧ threshold < p.green ∧ threshold < p.blue

instance (p : Pixel) : Decidable (white_pixels p) :=
  inferInstanceAs (Decidable (threshold < p.red ∧ threshold < p.green ∧ threshold < p.blue))

/-- Source line 60: the pass-2 mask `alpha < 50`. -/
def semi_transparent (p : Pixel) : Prop := p.alpha < 50

instance (p : Pixel) : Decidable (semi_transparent p) :=
  inferInstanceAs (Decidable (p.alpha < 50))

/-- The value of the numpy expression `red + green + blue` on `uint8`
channel planes: addition wraps modulo 256. -/
def rgbSumU8 (p : Pixel) : Nat := (p.red + p.green + p.blue) % 256

/-- Source lines 65-66: the pass-3 mask
`(alpha > 0) & (alpha < edge_threshold) & ((red + green + blue) / 3 > 200)`.
The division is numpy float division of the wrapped `uint8` sum, modelled
as exact division in `ℚ`. -/
def edge_white (p : Pixel) : Prop :=
  0 < p.alpha ∧ p.alpha < edge_threshold ∧ (200 : ℚ) < (rgbSumU8 p : ℚ) / 3

instance (p : Pixel) : Decidable (edge_white p) :=
  inferInstanceAs
    (Decidable (0 < p.alpha ∧ p.alpha < edge_threshold ∧ (200 : ℚ) < (rgbSumU8 p : ℚ) / 3))

/-- Pass 1 on one pixel, source line 57: `data[white_pixels] = [255, 255, 255, 0]`. -/
def pass1 (p : Pixel) : Pixel :=
  if white_pixels p then ⟨255, 255, 255, 0⟩ else p

/-- Pass 2 on one pixel, source line 61: `data[semi_transparent, 3] = 0`. -/
def pass2 (p : Pixel) : Pixel :=
  if semi_transparent p then { p with alpha := 0 } else p

/-- Pass 3 on one pixel, source line 67: `data[edge_white, 3] = 0`. -/
def pass3 (p : Pixel) : Pixel :=
  if edge_white p then { p with alpha := 0 } else p

/-- Apply a per-pixel transform to the whole buffer (one vectorized
masked assignment of the source). -/
def mapBuffer (f : Pixel → Pixel) (b : Buffer) : Buffer :=
  b.map (List.map f)

/-- Source lines 46-69, `ensure_transparency`: the three passes in order,
pass 2 reading the buffer written by pass 1 and pass 3 the buffer written
by pass 2 (the channel views alias the mutated array). -/
def ensure_transparency (b : Buffer) : Buffer :=
  mapBuffer pass3 (mapBuffer pass2 (mapBuffer pass1 b))

/-- The cumulative effect of the three passes on a single pixel. -/
def refinePixel (p : Pixel) : Pixel :=
  pass3 (pass2 (pass1 p))

/-- Modelled from the spec: the pass-3 RGB mean as §4.1 prescribes it,
computed "in a numeric type wide enough to avoid overflow when summing
three 8-bit values" — the exact arithmetic mean, no wrap-around. -/
def specMean (p : Pixel) : ℚ :=
  ((p.red : ℚ) + p.green + p.blue) / 3

/-- Lowercase one character as Python's `str.lower` does on ASCII. -/
def lowerChar (c : Char) : Char :=
  if 'A' ≤ c ∧ c ≤ 'Z' then Char.ofNat (c.toNat + 32) else c

/-- Whitespace as Python's `str.strip` removes it (ASCII range). -/
def isSpaceChar (c : Char) : Bool :=
  c == ' ' || c == '\t' || c == '\n' || c == '\r' || c == '\x0b' || c == '\x0c'

/-- Python's `s.strip().lower()` on an answer string: drop leading and
trailing whitespace, then lowercase every character. -/
def strip_lower (s : String) : List Char :=
  (((s.data.dropWhile isSpaceChar).reverse.dropWhile isSpaceChar).reverse).map lowerChar

/-- Source lines 126-127 of `select_options`:
`alpha_matting = alpha_matting_input != 'n'` where the raw answer was
first stripped and lowercased. -/
def alpha_matting_of (s : String) : Bool :=
  strip_lower s != ['n']

/-- Source lines 130-131 of `select_options`:
`only_mask = mask_only_input == 'y'` where the raw answer was first
stripped and lowercased. -/
def only_mask_of (s : String) : Bool :=
  strip_lower s == ['y']

/-- Source lines 71-104, `process_image_advanced`: run the fallible
pipeline body (decode, model invocation, refinement, encode) on one
image; the `try`/`except` catches any exception at the image boundary
and reports it as `(false, none)`. -/
def process_image_advanced {Img Out : Type} (step : Img → Except String Out)
    (img : Img) : Bool × Option Out :=
  match step img with
  | Except.ok out => (true, some out)
  | Except.error _ => (false, none)

/-- Source lines 179-192, the loop of `main`: visit every image in order
and tally `(successful, failed)`; a failed image only increments
`failed`, the loop always continues. -/
def runBatch {Img Out : Type} (step : Img → Except String Out)
    (images : List Img) : Nat × Nat :=
  images.foldl
    (fun counts img =>
      if (process_image_advanced step img).1 then (counts.1 + 1, counts.2)
      else (counts.1, counts.2 + 1))
    (0, 0)

/-! Lemmas about the three passes. -/

/-- A `uint8` sum is below 256. -/
lemma rgbSumU8_lt (p : Pixel) : rgbSumU8 p < 256 :=
  Nat.mod_lt _ (by norm_num)

/-- The pass-3 mask, with the rational comparison rewritten over naturals:
the wrapped mean exceeds 200 exactly when the wrapped sum exceeds 600. -/
lemma edge_white_iff (p : Pixel) :
    edge_white p ↔ 0 < p.alpha ∧ p.alpha < 200 ∧ 600 < rgbSumU8 p := by
  unfold edge_white edge_threshold
  refine and_congr_right fun _ => and_congr_right fun _ => ?_
  rw [lt_div_iff₀ (by norm_num : (0 : ℚ) < 3)]
  constructor
  · intro h
    exact_mod_cast h
  · intro h
    exact_mod_cast h

/-- The pass-3 mask is never satisfied: the `uint8` sum wraps below 256,
so the computed mean never exceeds 85, let alone 200. -/
lemma not_edge_white (p : Pixel) : ¬ edge_white p := by
  rw [edge_white_iff]
  rintro ⟨-, -, h⟩
  have := rgbSumU8_lt p
  omega

/-- Consequently pass 3 is the identity on every pixel. -/
lemma pass3_eq_id (p : Pixel) : pass3 p = p := by
  unfold pass3
  exact if_neg (not_edge_white p)

/-- With pass 3 the identity, the whole refinement collapses to the first
two passes. -/
lemma refinePixel_eq (p : Pixel) : refinePixel p = pass2 (pass1 p) := by
  rw [refinePixel, pass3_eq_id]

/-- Closed form of the per-pixel refinement, by cases on the two masks. -/
lemma refinePixel_cases (p : Pixel) :
    refinePixel p = ⟨255, 255, 255, 0⟩ ∨
      refinePixel p = p ∨
      refinePixel p = ⟨p.red, p.green, p.blue, 0⟩ := by
  rw [refinePixel_eq]
  unfold pass1 pass2
  by_cases hw : white_pixels p
  · left
    rw [if_pos hw]
    simp [semi_transparent]
  · by_cases hs : semi_transparent p
    · right; right
      rw [if_neg hw, if_pos hs]
    · right; left
      rw [if_neg hw, if_neg hs]

/-- The per-pixel refinement is idempotent. -/
lemma refinePixel_idem (p : Pixel) : refinePixel (refinePixel p) = refinePixel p := by
  rw [refinePixel_eq p, refinePixel_eq]
  unfold pass1 pass2
  by_cases hw : white_pixels p
  · rw [if_pos hw]
    simp [semi_transparent, white_pixels, threshold]
  · rw [if_neg hw]
    by_cases hs : semi_transparent p
    · rw [if_pos hs]
      have hw2 : ¬ white_pixels ({ p with alpha := 0 } : Pixel) := hw
      rw [if_neg hw2]
      simp [semi_transparent]
    · rw [if_neg hs, if_neg hw, if_neg hs]

/-- After refinement a pixel's alpha is 0 or at least 50. -/
lemma refinePixel_alpha (p : Pixel) :
    (refinePixel p).alpha = 0 ∨ 50 ≤ (refinePixel p).alpha := by
  rw [refinePixel_eq]
  unfold pass1 pass2
  by_cases hw : white_pixels p
  · rw [if_pos hw]
    simp [semi_transparent]
  · rw [if_neg hw]
    by_cases hs : semi_transparent p
    · rw [if_pos hs]
      left; rfl
    · rw [if_neg hs]
      right
      exact Nat.le_of_not_lt hs

/-- Refinement never increases a pixel's alpha. -/
lemma refinePixel_alpha_le (p : Pixel) : (refinePixel p).alpha ≤ p.alpha := by
  rw [refinePixel_eq]
  unfold pass1 pass2
  by_cases hw : white_pixels p
  · rw [if_pos hw]
    simp [semi_transparent]
  · rw [if_neg hw]
    by_cases hs : semi_transparent p
    · rw [if_pos hs]
      exact Nat.zero_le _
    · rw [if_neg hs]

/-- The three sequential whole-buffer passes fuse into one per-pixel map. -/
lemma ensure_transparency_eq_map (b : Buffer) :
    ensure_transparency b = mapBuffer refinePixel b := by
  unfold ensure_transparency mapBuffer refinePixel
  simp [List.map_map, Function.comp_def]

/-- Well-formedness is preserved by the per-pixel refinement. -/
lemma refinePixel_wf (p : Pixel) (h : p.wf) : (refinePixel p).wf := by
  rcases refinePixel_cases p with h1 | h1 | h1 <;> rw [h1]
  · decide
  · exact h
  · obtain ⟨hr, hg, hb, _⟩ := h
    exact ⟨hr, hg, hb, by norm_num⟩

/-- Concrete evaluation of the whole refinement on a one-pixel buffer. -/
lemma ensure_transparency_singleton :
    ensure_transparency [[⟨0, 0, 0, 30⟩]] = [[⟨0, 0, 0, 0⟩]] := by
  rw [ensure_transparency_eq_map]
  show [[refinePixel ⟨0, 0, 0, 30⟩]] = [[⟨0, 0, 0, 0⟩]]
  rw [refinePixel_eq]
  decide

/-- Counting invariant of the batch loop, for any starting tally. -/
lemma runBatch_foldl {Img Out : Type} (step : Img → Except String Out)
    (images : List Img) (acc : Nat × Nat) :
    (images.foldl
      (fun counts img =>
        if (process_image_advanced step img).1 then (counts.1 + 1, counts.2)
        else (counts.1, counts.2 + 1))
      acc).1 +
    (images.foldl
      (fun counts img =>
        if (process_image_advanced step img).1 then (counts.1 + 1, counts.2)
        else (counts.1, counts.2 + 1))
      acc).2 = acc.1 + acc.2 + images.length := by
  induction images generalizing acc with
  | nil => simp
  | cons img rest ih =>
    simp only [List.foldl_cons, List.length_cons]
    cases h : (process_image_advanced step img).1 <;> simp only [h, if_true, if_false,
      Bool.false_eq_true, ite_false, ite_true] <;> rw [ih] <;> omega

/-! Claim theorems. -/

/-- C1 (code bug): pass 3 as written can never fire, because the numpy
sum `red + green + blue` is computed on `uint8` planes and wraps modulo
256, so the computed mean never exceeds 85; the spec's edge-cleanup
behaviour (stated with an overflow-free mean, `specMean`) is therefore
violated, e.g. at the pixel (210, 210, 200, 120), which satisfies
0 < Alpha < 200 and has true mean 206⅔ > 200 yet is left unchanged by
the whole refinement. -/
theorem pass3_edge_cleanup_dead_code :
    (∀ p : Pixel, pass3 p = p) ∧
    refinePixel ⟨210, 210, 200, 120⟩ = ⟨210, 210, 200, 120⟩ ∧
    0 < (Pixel.mk 210 210 200 120).alpha ∧ (Pixel.mk 210 210 200 120).alpha < 200 ∧
    (200 : ℚ) < specMean ⟨210, 210, 200, 120⟩ := by
  refine ⟨pass3_eq_id, ?_, by norm_num, by norm_num, by norm_num [specMean]⟩
  rw [refinePixel_eq]
  decide

/-- C2: pass 1 sets every pixel with all of R, G, B strictly above 240 to
(255, 255, 255, 0), touches no other pixel, and the boundary is strict:
(241, 241, 241, 255) becomes (255, 255, 255, 0) while
(240, 240, 240, 255) is left as is. -/
theorem pass1_near_white_suppression :
    (∀ p : Pixel, white_pixels p → pass1 p = ⟨255, 255, 255, 0⟩) ∧
    (∀ p : Pixel, ¬ white_pixels p → pass1 p = p) ∧
    pass1 ⟨241, 241, 241, 255⟩ = ⟨255, 255, 255, 0⟩ ∧
    pass1 ⟨240, 240, 240, 255⟩ = ⟨240, 240, 240, 255⟩ :=
  ⟨fun _ h => if_pos h, fun _ h => if_neg h, by decide, by decide⟩

/-- Witness for C2 at the concrete pixel (241, 241, 241, 255). -/
theorem pass1_near_white_suppression_witness :
    white_pixels ⟨241, 241, 241, 255⟩ ∧
      pass1 ⟨241, 241, 241, 255⟩ = ⟨255, 255, 255, 0⟩ :=
  ⟨by decide, pass1_near_white_suppression.1 ⟨241, 241, 241, 255⟩ (by decide)⟩

/-- C3: pass 2 sets the alpha of every pixel whose alpha after pass 1 is
strictly below 50 to 0 and leaves that pixel's RGB channels exactly as
pass 1 produced them. -/
theorem pass2_low_alpha_snapping :
    ∀ p : Pixel, (pass1 p).alpha < 50 →
      pass2 (pass1 p) = ⟨(pass1 p).red, (pass1 p).green, (pass1 p).blue, 0⟩ := by
  intro p h
  unfold pass2
  exact if_pos h

/-- Witness for C3 at the concrete pixel (0, 0, 0, 30). -/
theorem pass2_low_alpha_snapping_witness :
    (pass1 ⟨0, 0, 0, 30⟩).alpha < 50 ∧
      pass2 (pass1 ⟨0, 0, 0, 30⟩) =
        ⟨(pass1 ⟨0, 0, 0, 30⟩).red, (pass1 ⟨0, 0, 0, 30⟩).green,
          (pass1 ⟨0, 0, 0, 30⟩).blue, 0⟩ :=
  ⟨by decide, pass2_low_alpha_snapping ⟨0, 0, 0, 30⟩ (by decide)⟩

/-- C4: the refinement is exactly pass 1, then pass 2, then pass 3, each
whole-buffer pass reading the buffer the previous pass wrote; and any
pixel whose alpha is already 0 when pass 3 evaluates it fails pass 3's
`alpha > 0` test and is left untouched by pass 3. -/
theorem passes_run_in_sequence :
    (∀ b : Buffer,
        ensure_transparency b = mapBuffer pass3 (mapBuffer pass2 (mapBuffer pass1 b))) ∧
    (∀ p : Pixel, (pass2 (pass1 p)).alpha = 0 →
        pass3 (pass2 (pass1 p)) = pass2 (pass1 p)) :=
  ⟨fun _ => rfl, fun p _ => pass3_eq_id (pass2 (pass1 p))⟩

/-- Witness for C4 at the concrete pixel (0, 0, 0, 30), zeroed by pass 2. -/
theorem passes_run_in_sequence_witness :
    (pass2 (pass1 ⟨0, 0, 0, 30⟩)).alpha = 0 ∧
      pass3 (pass2 (pass1 ⟨0, 0, 0, 30⟩)) = pass2 (pass1 ⟨0, 0, 0, 30⟩) :=
  ⟨by decide, passes_run_in_sequence.2 ⟨0, 0, 0, 30⟩ (by decide)⟩

/-- C5: the refinement is idempotent on every buffer. -/
theorem ensure_transparency_idempotent :
    ∀ b : Buffer, ensure_transparency (ensure_transparency b) = ensure_transparency b := by
  intro b
  rw [ensure_transparency_eq_map b, ensure_transparency_eq_map]
  unfold mapBuffer
  simp [List.map_map, Function.comp_def, refinePixel_idem]

/-- C6: on a well-formed RGBA buffer the refinement is total and pure: it
returns a buffer that is again well formed (every channel 8-bit) and has
exactly the input's dimensions. -/
theorem ensure_transparency_total :
    ∀ b : Buffer, b.wf →
      (ensure_transparency b).wf ∧
      (ensure_transparency b).length = b.length ∧
      (ensure_transparency b).map List.length = b.map List.length := by
  intro b hwf
  rw [ensure_transparency_eq_map]
  refine ⟨?_, by simp [mapBuffer], by simp [mapBuffer, List.map_map, Function.comp_def]⟩
  intro row hrow p hp
  simp only [mapBuffer] at hrow
  rcases List.mem_map.mp hrow with ⟨row0, hrow0, rfl⟩
  rcases List.mem_map.mp hp with ⟨p0, hp0, rfl⟩
  exact refinePixel_wf p0 (hwf row0 hrow0 p0 hp0)

/-- Witness for C6 on a concrete well-formed 1×2 buffer. -/
theorem ensure_transparency_total_witness :
    Buffer.wf [[⟨250, 250, 250, 255⟩, ⟨0, 0, 0, 30⟩]] ∧
      ((ensure_transparency [[⟨250, 250, 250, 255⟩, ⟨0, 0, 0, 30⟩]]).wf ∧
        (ensure_transparency [[⟨250, 250, 250, 255⟩, ⟨0, 0, 0, 30⟩]]).length =
          ([[⟨250, 250, 250, 255⟩, ⟨0, 0, 0, 30⟩]] : Buffer).length ∧
        (ensure_transparency [[⟨250, 250, 250, 255⟩, ⟨0, 0, 0, 30⟩]]).map List.length =
          ([[⟨250, 250, 250, 255⟩, ⟨0, 0, 0, 30⟩]] : Buffer).map List.length) :=
  ⟨by decide, ensure_transparency_total [[⟨250, 250, 250, 255⟩, ⟨0, 0, 0, 30⟩]] (by decide)⟩

/-- C7 counterexample: the claim ties the options to the literal answers
'n' and 'y', but the code strips and lowercases the answer first: the
answer "N" is not the literal "n", yet alpha matting is disabled for it. -/
theorem select_options_literal_counterexample :
    alpha_matting_of "N" = false ∧ "N" ≠ "n" := by
  constructor
  · decide
  · decide

/-- C7 as amended: after stripping surrounding whitespace and lowercasing
the answer, alpha matting is disabled exactly for the normalized answer
"n" (anything else enables it), while mask-only is enabled exactly for
the normalized answer "y" (anything else disables it). -/
theorem select_options_asymmetry :
    ∀ s : String,
      (alpha_matting_of s = false ↔ strip_lower s = ['n']) ∧
      (only_mask_of s = true ↔ strip_lower s = ['y']) := by
  intro s
  constructor
  · simp [alpha_matting_of]
  · simp [only_mask_of]

/-- C8: the batch loop visits every image: for any fallible per-image
step, successes and failures together account for the entire batch, so
no per-image failure ever aborts the loop. -/
theorem per_image_failure_isolation :
    ∀ (Img Out : Type) (step : Img → Except String Out) (images : List Img),
      (runBatch step images).1 + (runBatch step images).2 = images.length := by
  intro Img Out step images
  unfold runBatch
  rw [runBatch_foldl]
  simp

/-- C9: no pixel of a refined buffer has alpha strictly between 0 and 50:
every output alpha is 0 or at least 50. -/
theorem refined_alpha_zero_or_fifty :
    ∀ b : Buffer, ∀ row ∈ ensure_transparency b, ∀ p ∈ row,
      p.alpha = 0 ∨ 50 ≤ p.alpha := by
  intro b row hrow p hp
  rw [ensure_transparency_eq_map] at hrow
  simp only [mapBuffer] at hrow
  rcases List.mem_map.mp hrow with ⟨row0, -, rfl⟩
  rcases List.mem_map.mp hp with ⟨p0, -, rfl⟩
  exact refinePixel_alpha p0

/-- Witness for C9 on the concrete buffer [[(0, 0, 0, 30)]], whose single
refined pixel is (0, 0, 0, 0). -/
theorem refined_alpha_zero_or_fifty_witness :
    [(⟨0, 0, 0, 0⟩ : Pixel)] ∈ ensure_transparency [[⟨0, 0, 0, 30⟩]] ∧
      (⟨0, 0, 0, 0⟩ : Pixel) ∈ [(⟨0, 0, 0, 0⟩ : Pixel)] ∧
      ((Pixel.mk 0 0 0 0).alpha = 0 ∨ 50 ≤ (Pixel.mk 0 0 0 0).alpha) := by
  have h1 : [(⟨0, 0, 0, 0⟩ : Pixel)] ∈ ensure_transparency [[⟨0, 0, 0, 30⟩]] := by
    rw [ensure_transparency_singleton]
    exact List.mem_singleton.mpr rfl
  have h2 : (⟨0, 0, 0, 0⟩ : Pixel) ∈ [(⟨0, 0, 0, 0⟩ : Pixel)] :=
    List.mem_singleton.mpr rfl
  exact ⟨h1, h2, refined_alpha_zero_or_fifty [[⟨0, 0, 0, 30⟩]] _ h1 _ h2⟩

/-- C10: the refinement acts pixelwise, and each output pixel is exactly
(255, 255, 255, 0), the input pixel unchanged, or the input pixel with
only its alpha replaced by 0; in particular alpha never increases. -/
theorem refine_frame_property :
    (∀ b : Buffer, ensure_transparency b = mapBuffer refinePixel b) ∧
    (∀ p : Pixel,
        refinePixel p = ⟨255, 255, 255, 0⟩ ∨ refinePixel p = p ∨
          refinePixel p = ⟨p.red, p.green, p.blue, 0⟩) ∧
    (∀ p : Pixel, (refinePixel p).alpha ≤ p.alpha) :=
  ⟨ensure_transparency_eq_map, refinePixel_cases, refinePixel_alpha_le⟩

end BackgroundRemover
